import Mathlib

/-!
# Verification of the anonymous-session identity resolver

Shallow embedding of the cookie-bootstrap logic of the session-creation
route handler (`resolveUserId`, `getCookieValue`, `serializeSessionCookie`
and the constants `SESSION_COOKIE_NAME`, `SESSION_COOKIE_MAX_AGE`).

Modelling decisions:
* JavaScript strings are Lean `String`s; character-level work happens on
  `String.data` (`List Char`).
* `str.split(sep)` for a one-character separator is modelled by
  `splitOnChar`, which matches JS semantics: `"".split(";") = [""]`,
  separators at the ends produce empty segments.
* `Array.prototype.join` is modelled by `joinWith` / `joinStrings`.
* `String.prototype.trim` is modelled by `trimChars` over the JS
  whitespace characters that can occur in a header line.
* `process.env.NODE_ENV === "production"` is the boolean `prod`;
  `typeof crypto.randomUUID === "function"` is the boolean `cryptoAvail`.
* The random sources are explicit inputs: `crypto.randomUUID()` is
  `randomUUID` applied to a `UUIDDraw` (the 30 free nibbles and the
  variant nibble of a version-4 UUID), and
  `Math.random().toString(36).slice(2)` is `mathRandomBase36` applied to
  the list of base-36 fraction digits of the drawn number.
* `encodeURIComponent` is modelled per ECMA-262: unreserved characters
  (`A-Z a-z 0-9 - _ . ! ~ * ' ( )`) are kept, every other character is
  replaced by the uppercase percent-encoding of its UTF-8 bytes.
-/

/-- JS `str.split(c)` for a single-character separator `c`.
`splitOnChar c [] = [[]]` just as `"".split(c) = [""]` in JS. -/
def splitOnChar (sep : Char) : List Char → List (List Char)
  | [] => [[]]
  | c :: cs =>
    match splitOnChar sep cs with
    | [] => [[]]
    | seg :: rest =>
      if c = sep then [] :: seg :: rest else (c :: seg) :: rest

/-- JS `arr.join(sep)` on lists of characters. -/
def joinWith (sep : List Char) : List (List Char) → List Char
  | [] => []
  | [x] => x
  | x :: y :: xs => x ++ sep ++ joinWith sep (y :: xs)

/-- JS `arr.join(sep)` on lists of strings. -/
def joinStrings (sep : String) : List String → String
  | [] => ""
  | [x] => x
  | x :: y :: xs => x ++ sep ++ joinStrings sep (y :: xs)

/-- The JS whitespace characters relevant to `String.prototype.trim`
(restricted to the code points that can appear in an HTTP header value). -/
def isJsSpace (c : Char) : Bool :=
  c = ' ' || c = '\t' || c = '\n' || c = '\r' ||
    c = Char.ofNat 11 || c = Char.ofNat 12

/-- JS `str.trim()`: drop leading and trailing whitespace. -/
def trimChars (l : List Char) : List Char :=
  ((l.dropWhile isJsSpace).reverse.dropWhile isJsSpace).reverse

/-- `const SESSION_COOKIE_NAME = "chatkit_session_id"`. -/
def SESSION_COOKIE_NAME : String := "chatkit_session_id"

/-- `const SESSION_COOKIE_MAX_AGE = 60 * 60 * 24 * 30`. -/
def SESSION_COOKIE_MAX_AGE : Nat := 60 * 60 * 24 * 30

/-- The per-segment step of `getCookieValue`'s loop:
`const [rawName, ...rest] = cookie.split("=");
 if (!rawName || rest.length === 0) continue;
 if (rawName.trim() === name) return rest.join("=").trim();`
Returns `some value` when this segment matches, `none` when the loop
continues. -/
def segMatch (name : List Char) (seg : List Char) : Option (List Char) :=
  match splitOnChar '=' seg with
  | [] => none
  | rawName :: rest =>
    if rawName = [] ∨ rest = [] then none
    else if trimChars rawName = name then some (trimChars (joinWith ['='] rest))
    else none

/-- The `for (const cookie of cookies)` loop of `getCookieValue`:
first segment whose parse matches wins. -/
def findCookie (name : List Char) : List (List Char) → Option (List Char)
  | [] => none
  | seg :: segs =>
    match segMatch name seg with
    | some v => some v
    | none => findCookie name segs

/-- `getCookieValue(cookieHeader, name)`: `null`/empty header gives `null`
(`if (!cookieHeader) return null`), otherwise split on `";"` and scan. -/
def getCookieValue (cookieHeader : Option String) (name : String) :
    Option String :=
  match cookieHeader with
  | none => none
  | some h =>
    if h = "" then none
    else (findCookie name.data (splitOnChar ';' h.data)).map String.mk

/-- The nibble-to-character map used in UUID rendering and percent-decoding
checks: lowercase hexadecimal. -/
def hexChar (n : Fin 16) : Char :=
  if n.val < 10 then Char.ofNat (48 + n.val) else Char.ofNat (87 + n.val)

/-- The random input consumed by one call of `crypto.randomUUID()`:
a version-4 UUID has 30 free hexadecimal nibbles plus a variant nibble
drawn from `{8, 9, a, b}`. -/
structure UUIDDraw where
  nib : Fin 30 → Fin 16
  variant : Fin 4
deriving DecidableEq

/-- The variant nibble renders as one of `8`, `9`, `a`, `b`. -/
def variantChar (v : Fin 4) : Char := hexChar ⟨8 + v.val, by omega⟩

/-- The 36 characters of the rendered version-4 UUID:
`xxxxxxxx-xxxx-4xxx-yxxx-xxxxxxxxxxxx`. -/
def uuidChars (d : UUIDDraw) : List Char :=
  [hexChar (d.nib 0), hexChar (d.nib 1), hexChar (d.nib 2),
   hexChar (d.nib 3), hexChar (d.nib 4), hexChar (d.nib 5),
   hexChar (d.nib 6), hexChar (d.nib 7), '-',
   hexChar (d.nib 8), hexChar (d.nib 9), hexChar (d.nib 10),
   hexChar (d.nib 11), '-', '4',
   hexChar (d.nib 12), hexChar (d.nib 13), hexChar (d.nib 14), '-',
   variantChar d.variant,
   hexChar (d.nib 15), hexChar (d.nib 16), hexChar (d.nib 17), '-',
   hexChar (d.nib 18), hexChar (d.nib 19), hexChar (d.nib 20),
   hexChar (d.nib 21), hexChar (d.nib 22), hexChar (d.nib 23),
   hexChar (d.nib 24), hexChar (d.nib 25), hexChar (d.nib 26),
   hexChar (d.nib 27), hexChar (d.nib 28), hexChar (d.nib 29)]

/-- Modelled from the spec of the Web Crypto API: `crypto.randomUUID()`
renders the drawn random bits as the canonical 36-character string. -/
def randomUUID (d : UUIDDraw) : String := ⟨uuidChars d⟩

/-- Base-36 digit characters, as produced by JS `Number.toString(36)`:
`0-9` then `a-z`. -/
def digit36 (n : Fin 36) : Char :=
  if n.val < 10 then Char.ofNat (48 + n.val) else Char.ofNat (87 + n.val)

/-- Modelled from the spec: the fallback generator
`Math.random().toString(36).slice(2)` — the base-36 fraction digits of the
drawn number with the leading `0.` sliced off. -/
def mathRandomBase36 (digits : List (Fin 36)) : String :=
  ⟨digits.map digit36⟩

/-- The generation expression of `resolveUserId`:
`typeof crypto.randomUUID === "function" ? crypto.randomUUID()
 : Math.random().toString(36).slice(2)`. -/
def generateId (cryptoAvail : Bool) (u : UUIDDraw) (m : List (Fin 36)) :
    String :=
  if cryptoAvail then randomUUID u else mathRandomBase36 m

/-- ECMA-262 `encodeURIComponent` unreserved characters:
`A-Z a-z 0-9 - _ . ! ~ * ' ( )`. -/
def isUnreservedURI (c : Char) : Bool :=
  (65 ≤ c.toNat && c.toNat ≤ 90) || (97 ≤ c.toNat && c.toNat ≤ 122) ||
  (48 ≤ c.toNat && c.toNat ≤ 57) ||
  c.toNat = 45 || c.toNat = 95 || c.toNat = 46 || c.toNat = 33 ||
  c.toNat = 126 || c.toNat = 42 || c.toNat = 39 || c.toNat = 40 ||
  c.toNat = 41

/-- Uppercase hexadecimal digit of `n < 16`. -/
def hexUpper (n : Nat) : Char :=
  if n < 10 then Char.ofNat (48 + n) else Char.ofNat (55 + n)

/-- UTF-8 bytes of the code point `n`. -/
def utf8Bytes (n : Nat) : List Nat :=
  if n < 128 then [n]
  else if n < 2048 then [192 + n / 64, 128 + n % 64]
  else if n < 65536 then
    [224 + n / 4096, 128 + (n / 64) % 64, 128 + n % 64]
  else
    [240 + n / 262144, 128 + (n / 4096) % 64, 128 + (n / 64) % 64,
     128 + n % 64]

/-- `%XY` rendering of one byte. -/
def pctByte (b : Nat) : List Char := ['%', hexUpper (b / 16), hexUpper (b % 16)]

/-- One character of `encodeURIComponent` output: kept if unreserved,
percent-encoded bytewise otherwise. -/
def encodeChar (c : Char) : List Char :=
  if isUnreservedURI c then [c] else ((utf8Bytes c.toNat).map pctByte).flatten

/-- ECMA-262 `encodeURIComponent`. -/
def encodeURIComponent (s : String) : String :=
  ⟨(s.data.map encodeChar).flatten⟩

/-- `serializeSessionCookie(value)`: the attribute array joined by `"; "`,
with `Secure` pushed exactly when `NODE_ENV === "production"`. -/
def serializeSessionCookie (prod : Bool) (value : String) : String :=
  joinStrings "; "
    ([SESSION_COOKIE_NAME ++ "=" ++ encodeURIComponent value,
      "Path=/",
      "Max-Age=" ++ toString SESSION_COOKIE_MAX_AGE,
      "HttpOnly",
      "SameSite=Lax"] ++ if prod then ["Secure"] else [])

/-- The result record `{ userId, sessionCookie }` of `resolveUserId`. -/
structure ResolveResult where
  userId : String
  sessionCookie : Option String
deriving DecidableEq

/-- The minting branch of `resolveUserId`: generate and serialize. -/
def mintResult (cryptoAvail prod : Bool) (u : UUIDDraw) (m : List (Fin 36)) :
    ResolveResult :=
  { userId := generateId cryptoAvail u m,
    sessionCookie := some (serializeSessionCookie prod (generateId cryptoAvail u m)) }

/-- `resolveUserId(request)`: reuse a truthy cookie value, else mint.
`if (existing)` is false for JS `null` and for the empty string. -/
def resolveUserId (cookieHeader : Option String) (cryptoAvail prod : Bool)
    (u : UUIDDraw) (m : List (Fin 36)) : ResolveResult :=
  match getCookieValue cookieHeader SESSION_COOKIE_NAME with
  | some v =>
    if v = "" then mintResult cryptoAvail prod u m
    else { userId := v, sessionCookie := none }
  | none => mintResult cryptoAvail prod u m

/-- Split a character list at the first `'='`, returning the parts before
and after it; `none` when there is no `'='`.  This is the "split on the
first `=` only" operation in the words of the specification. -/
def splitFirstEq : List Char → Option (List Char × List Char)
  | [] => none
  | c :: cs =>
    if c = '=' then some ([], cs)
    else
      match splitFirstEq cs with
      | none => none
      | some (a, b) => some (c :: a, b)

/-- The cookie-lookup algorithm exactly as the specification words it:
split the header on `;`, split each segment on the first `=` only, trim
the name, compare exactly and case-sensitively, and return the value of
the first matching pair (the value returned as-is, not trimmed). -/
def specSegMatch (name : List Char) (seg : List Char) : Option (List Char) :=
  match splitFirstEq seg with
  | none => none
  | some (n, v) => if trimChars n = name then some v else none

/-- First-match scan of `specSegMatch` over the segments. -/
def specFindCookie (name : List Char) : List (List Char) → Option (List Char)
  | [] => none
  | seg :: segs =>
    match specSegMatch name seg with
    | some v => some v
    | none => specFindCookie name segs

/-- The claimed algorithm for `getCookieValue`, assembled from the
specification's words (value returned in full, untrimmed). -/
def specGetCookieValue (cookieHeader : Option String) (name : String) :
    Option String :=
  match cookieHeader with
  | none => none
  | some h =>
    if h = "" then none
    else (specFindCookie name.data (splitOnChar ';' h.data)).map String.mk

/-- The claimed algorithm with the one correction the code forces: the
returned value is additionally trimmed. -/
def specSegMatchTrim (name : List Char) (seg : List Char) :
    Option (List Char) :=
  match splitFirstEq seg with
  | none => none
  | some (n, v) => if trimChars n = name then some (trimChars v) else none

/-- First-match scan of `specSegMatchTrim` over the segments. -/
def specFindCookieTrim (name : List Char) :
    List (List Char) → Option (List Char)
  | [] => none
  | seg :: segs =>
    match specSegMatchTrim name seg with
    | some v => some v
    | none => specFindCookieTrim name segs

/-- The specification's algorithm with trimmed values. -/
def specGetCookieValueTrim (cookieHeader : Option String) (name : String) :
    Option String :=
  match cookieHeader with
  | none => none
  | some h =>
    if h = "" then none
    else (specFindCookieTrim name.data (splitOnChar ';' h.data)).map String.mk

/-- A cookie segment is well-formed when it splits into a non-empty raw
name and at least one part after an `=`; `getCookieValue` skips all other
segments (`if (!rawName || rest.length === 0) continue;`). -/
def isWellFormedSeg (seg : List Char) : Bool :=
  match splitOnChar '=' seg with
  | [] => false
  | rawName :: rest => !rawName.isEmpty && !rest.isEmpty

section SplitLemmas

theorem splitOnChar_ne_nil (sep : Char) (l : List Char) :
    splitOnChar sep l ≠ [] := by
  cases l with
  | nil => simp [splitOnChar]
  | cons c cs =>
    simp only [splitOnChar]
    rcases h : splitOnChar sep cs with _ | ⟨seg, rest⟩
    · simp
    · by_cases hc : c = sep <;> simp [hc]

theorem splitOnChar_of_not_mem {sep : Char} {l : List Char}
    (h : sep ∉ l) : splitOnChar sep l = [l] := by
  induction l with
  | nil => rfl
  | cons c cs ih =>
    have hc : c ≠ sep := fun hh => h (hh ▸ List.mem_cons_self c cs)
    have hcs : sep ∉ cs := fun hh => h (List.mem_cons_of_mem c hh)
    simp [splitOnChar, ih hcs, hc]

theorem splitOnChar_append {sep : Char} {l₁ : List Char} (l₂ : List Char)
    (h : sep ∉ l₁) :
    splitOnChar sep (l₁ ++ sep :: l₂) = l₁ :: splitOnChar sep l₂ := by
  induction l₁ with
  | nil =>
    simp only [List.nil_append, splitOnChar]
    rcases hs : splitOnChar sep l₂ with _ | ⟨seg, rest⟩
    · exact absurd hs (splitOnChar_ne_nil sep l₂)
    · simp
  | cons c cs ih =>
    have hc : c ≠ sep := fun hh => h (hh ▸ List.mem_cons_self c cs)
    have hcs : sep ∉ cs := fun hh => h (List.mem_cons_of_mem c hh)
    show splitOnChar sep (c :: (cs ++ sep :: l₂)) = _
    simp only [splitOnChar, ih hcs, hc, if_false]

theorem joinWith_splitOnChar (sep : Char) (l : List Char) :
    joinWith [sep] (splitOnChar sep l) = l := by
  induction l with
  | nil => rfl
  | cons c cs ih =>
    simp only [splitOnChar]
    rcases h : splitOnChar sep cs with _ | ⟨seg, rest⟩
    · exact absurd h (splitOnChar_ne_nil sep cs)
    · rw [h] at ih
      by_cases hc : c = sep
      · subst hc
        simp only [if_pos rfl]
        cases rest with
        | nil => simpa [joinWith] using congrArg (c :: ·) ih
        | cons r rs => simpa [joinWith] using congrArg (c :: ·) ih
      · simp only [if_neg hc]
        cases rest with
        | nil => simpa [joinWith] using congrArg (c :: ·) ih
        | cons r rs => simpa [joinWith] using congrArg (c :: ·) ih

theorem not_mem_head_splitOnChar {sep : Char} {l seg : List Char}
    {rest : List (List Char)} (h : splitOnChar sep l = seg :: rest) :
    sep ∉ seg := by
  induction l generalizing seg rest with
  | nil =>
    simp only [splitOnChar] at h
    cases h
    simp
  | cons c cs ih =>
    simp only [splitOnChar] at h
    rcases hs : splitOnChar sep cs with _ | ⟨seg₀, rest₀⟩
    · exact absurd hs (splitOnChar_ne_nil sep cs)
    · rw [hs] at h
      dsimp only at h
      by_cases hc : c = sep
      · rw [if_pos hc] at h
        cases h
        simp
      · rw [if_neg hc] at h
        cases h
        intro hmem
        rcases List.mem_cons.mp hmem with h1 | h2
        · exact hc h1.symm
        · exact ih hs h2

theorem eq_of_splitOnChar_singleton {sep : Char} {l seg : List Char}
    (h : splitOnChar sep l = [seg]) : l = seg := by
  have := joinWith_splitOnChar sep l
  rw [h] at this
  simpa [joinWith] using this.symm

theorem splitOnChar_structure {sep : Char} {l seg : List Char}
    {rest : List (List Char)} (h : splitOnChar sep l = seg :: rest)
    (hr : rest ≠ []) : l = seg ++ sep :: joinWith [sep] rest := by
  have := joinWith_splitOnChar sep l
  rw [h] at this
  rcases rest with _ | ⟨r, rs⟩
  · exact absurd rfl hr
  · simp only [joinWith] at this
    rw [← this]
    simp

theorem splitFirstEq_eq_none {l : List Char} (h : '=' ∉ l) :
    splitFirstEq l = none := by
  induction l with
  | nil => rfl
  | cons c cs ih =>
    have hc : c ≠ '=' := fun hh => h (hh ▸ List.mem_cons_self c cs)
    have hcs : '=' ∉ cs := fun hh => h (List.mem_cons_of_mem c hh)
    simp [splitFirstEq, hc, ih hcs]

theorem splitFirstEq_append {a : List Char} (z : List Char)
    (h : '=' ∉ a) : splitFirstEq (a ++ '=' :: z) = some (a, z) := by
  induction a with
  | nil => simp [splitFirstEq]
  | cons c cs ih =>
    have hc : c ≠ '=' := fun hh => h (hh ▸ List.mem_cons_self c cs)
    have hcs : '=' ∉ cs := fun hh => h (List.mem_cons_of_mem c hh)
    show splitFirstEq (c :: (cs ++ '=' :: z)) = _
    simp [splitFirstEq, hc, ih hcs]

end SplitLemmas

section TrimLemmas

theorem dropWhile_eq_self_of (p : Char → Bool) (l : List Char)
    (h : ∀ c ∈ l, p c = false) : l.dropWhile p = l := by
  cases l with
  | nil => rfl
  | cons c cs => simp [List.dropWhile_cons, h c (List.mem_cons_self c cs)]

theorem trimChars_eq_self {l : List Char}
    (h : ∀ c ∈ l, isJsSpace c = false) : trimChars l = l := by
  unfold trimChars
  rw [dropWhile_eq_self_of _ _ h,
    dropWhile_eq_self_of _ _ (fun c hc => h c (List.mem_reverse.mp hc)),
    List.reverse_reverse]

end TrimLemmas

section SpecEquivalence

theorem segMatch_eq_specTrim {name : List Char} (hn : name ≠ [])
    (seg : List Char) : segMatch name seg = specSegMatchTrim name seg := by
  rcases h : splitOnChar '=' seg with _ | ⟨r, rest⟩
  · exact absurd h (splitOnChar_ne_nil '=' seg)
  · rcases rest with _ | ⟨r1, rs⟩
    · -- no '=' in the segment: both sides skip
      have hseg : seg = r := eq_of_splitOnChar_singleton h
      have hne : '=' ∉ seg := hseg ▸ not_mem_head_splitOnChar h
      simp [segMatch, specSegMatchTrim, h, splitFirstEq_eq_none hne]
    · -- seg = r ++ '=' :: v with v the rest joined back on '='
      have hseg : seg = r ++ '=' :: joinWith ['='] (r1 :: rs) :=
        splitOnChar_structure h (by simp)
      have hr : '=' ∉ r := not_mem_head_splitOnChar h
      have hfe : splitFirstEq seg = some (r, joinWith ['='] (r1 :: rs)) :=
        hseg ▸ splitFirstEq_append _ hr
      by_cases hre : r = []
      · subst hre
        simp [segMatch, specSegMatchTrim, h, hfe, trimChars, Ne.symm hn]
      · simp [segMatch, specSegMatchTrim, h, hfe, hre]

theorem findCookie_eq_specTrim {name : List Char} (hn : name ≠ [])
    (segs : List (List Char)) :
    findCookie name segs = specFindCookieTrim name segs := by
  induction segs with
  | nil => rfl
  | cons seg rest ih =>
    simp only [findCookie, specFindCookieTrim, segMatch_eq_specTrim hn seg, ih]

theorem getCookieValue_eq_specTrim (cookieHeader : Option String)
    {name : String} (hn : name ≠ "") :
    getCookieValue cookieHeader name = specGetCookieValueTrim cookieHeader name := by
  have hd : name.data ≠ [] := by
    intro h
    exact hn (String.ext h)
  cases cookieHeader with
  | none => rfl
  | some h =>
    simp only [getCookieValue, specGetCookieValueTrim,
      findCookie_eq_specTrim hd]

end SpecEquivalence

section WellFormed

theorem segMatch_eq_none_of_not_wf {name seg : List Char}
    (h : isWellFormedSeg seg = false) : segMatch name seg = none := by
  unfold isWellFormedSeg at h
  unfold segMatch
  rcases hs : splitOnChar '=' seg with _ | ⟨r, rest⟩
  · rfl
  · rw [hs] at h
    simp only [Bool.and_eq_false_iff, Bool.not_eq_false'] at h
    dsimp only
    rcases h with h | h
    · rw [if_pos (Or.inl (List.isEmpty_iff.mp h))]
    · rw [if_pos (Or.inr (List.isEmpty_iff.mp h))]

theorem findCookie_filter (name : List Char) (segs : List (List Char)) :
    findCookie name segs = findCookie name (segs.filter isWellFormedSeg) := by
  induction segs with
  | nil => rfl
  | cons seg rest ih =>
    by_cases hwf : isWellFormedSeg seg = true
    · simp only [List.filter_cons, hwf, if_pos, findCookie, ih]
    · have hwf' : isWellFormedSeg seg = false := by
        simpa using hwf
      rw [List.filter_cons_of_neg (by simp [hwf'])]
      simp only [findCookie, segMatch_eq_none_of_not_wf hwf', ih]

theorem not_wf_of_no_eq {seg : List Char} (h : '=' ∉ seg) :
    isWellFormedSeg seg = false := by
  unfold isWellFormedSeg
  rw [splitOnChar_of_not_mem h]
  simp

end WellFormed

section EncodeLemmas

/-- Characters that cannot interfere with cookie-header parsing:
not `;`, not `=`, and not whitespace. -/
def plainChar (c : Char) : Bool :=
  !(c = ';') && !(c = '=') && !(isJsSpace c)

theorem char_toNat_lt (c : Char) : c.toNat < 1114112 := by
  rcases c.valid with h | ⟨h1, h2⟩
  · have : c.val.toNat < 55296 := h
    simp only [Char.toNat]
    omega
  · have : c.val.toNat < 1114112 := h2
    simp only [Char.toNat]
    omega

theorem plainChar_of_isUnreserved {c : Char}
    (h : isUnreservedURI c = true) : plainChar c = true := by
  by_cases h1 : c = ';'
  · subst h1; exact absurd h (by decide)
  by_cases h2 : c = '='
  · subst h2; exact absurd h (by decide)
  by_cases h3 : c = ' '
  · subst h3; exact absurd h (by decide)
  by_cases h4 : c = '\t'
  · subst h4; exact absurd h (by decide)
  by_cases h5 : c = '\n'
  · subst h5; exact absurd h (by decide)
  by_cases h6 : c = '\r'
  · subst h6; exact absurd h (by decide)
  by_cases h7 : c = Char.ofNat 11
  · subst h7; exact absurd h (by decide)
  by_cases h8 : c = Char.ofNat 12
  · subst h8; exact absurd h (by decide)
  simp [plainChar, isJsSpace, h1, h2, h3, h4, h5, h6, h7, h8]

theorem hexUpper_plain {k : Nat} (hk : k < 16) :
    plainChar (hexUpper k) = true := by
  interval_cases k <;> decide

theorem utf8Bytes_lt {n : Nat} (hn : n < 1114112) :
    ∀ b ∈ utf8Bytes n, b < 256 := by
  intro b hb
  unfold utf8Bytes at hb
  split_ifs at hb with h1 h2 h3 <;> simp at hb <;> omega

theorem plainChar_encodeChar (c : Char) :
    ∀ c' ∈ encodeChar c, plainChar c' = true := by
  intro c' hc'
  unfold encodeChar at hc'
  by_cases hu : isUnreservedURI c = true
  · rw [if_pos hu] at hc'
    simp only [List.mem_singleton] at hc'
    exact hc' ▸ plainChar_of_isUnreserved hu
  · rw [if_neg hu] at hc'
    simp only [List.mem_flatten, List.mem_map] at hc'
    obtain ⟨lb, ⟨b, hb, rfl⟩, hmem⟩ := hc'
    have hb256 : b < 256 := utf8Bytes_lt (char_toNat_lt c) b hb
    simp only [pctByte, List.mem_cons, List.not_mem_nil, or_false] at hmem
    rcases hmem with rfl | rfl | rfl
    · decide
    · exact hexUpper_plain (by omega)
    · exact hexUpper_plain (Nat.mod_lt b (by omega))

theorem plainChar_encode (s : String) :
    ∀ c ∈ (encodeURIComponent s).data, plainChar c = true := by
  intro c hc
  simp only [encodeURIComponent, List.mem_flatten, List.mem_map] at hc
  obtain ⟨lb, ⟨b, _, rfl⟩, hmem⟩ := hc
  exact plainChar_encodeChar b c hmem

theorem semi_not_mem_encode (s : String) :
    ';' ∉ (encodeURIComponent s).data := fun h =>
  absurd (plainChar_encode s ';' h) (by decide)

theorem eq_not_mem_encode (s : String) :
    '=' ∉ (encodeURIComponent s).data := fun h =>
  absurd (plainChar_encode s '=' h) (by decide)

theorem space_not_mem_encode (s : String) :
    ∀ c ∈ (encodeURIComponent s).data, isJsSpace c = false := by
  intro c hc
  have := plainChar_encode s c hc
  simp only [plainChar, Bool.and_eq_true, Bool.not_eq_true'] at this
  exact this.2

theorem flatten_map_encodeChar {l : List Char}
    (h : ∀ c ∈ l, isUnreservedURI c = true) :
    (l.map encodeChar).flatten = l := by
  induction l with
  | nil => rfl
  | cons c cs ih =>
    have hc := h c (List.mem_cons_self c cs)
    have hcs : ∀ c' ∈ cs, isUnreservedURI c' = true :=
      fun c' hc' => h c' (List.mem_cons_of_mem c hc')
    simp [encodeChar, hc, ih hcs]

theorem encode_eq_self {s : String}
    (h : ∀ c ∈ s.data, isUnreservedURI c = true) :
    encodeURIComponent s = s :=
  String.ext (flatten_map_encodeChar h)

end EncodeLemmas

section SerializeLemmas

/-- The constant suffix of the serialized cookie after the value. -/
def cookieTail (prod : Bool) : String :=
  if prod then " Path=/; Max-Age=2592000; HttpOnly; SameSite=Lax; Secure"
  else " Path=/; Max-Age=2592000; HttpOnly; SameSite=Lax"

theorem serialize_data (prod : Bool) (v : String) :
    (serializeSessionCookie prod v).data =
      SESSION_COOKIE_NAME.data ++
        '=' :: ((encodeURIComponent v).data ++ ';' :: (cookieTail prod).data) := by
  unfold serializeSessionCookie
  rw [show (toString SESSION_COOKIE_MAX_AGE : String) = "2592000" from by decide]
  cases prod <;>
    simp [joinStrings, String.data_append, SESSION_COOKIE_NAME, cookieTail]

theorem serialize_eq (prod : Bool) (v : String) :
    serializeSessionCookie prod v =
      "chatkit_session_id=" ++ encodeURIComponent v ++
        "; Path=/; Max-Age=2592000; HttpOnly; SameSite=Lax" ++
        (if prod then "; Secure" else "") := by
  apply String.ext
  rw [serialize_data]
  cases prod <;>
    simp [String.data_append, SESSION_COOKIE_NAME, cookieTail]

theorem serialize_ne_empty (prod : Bool) (v : String) :
    serializeSessionCookie prod v ≠ "" := by
  intro h
  have hd := serialize_data prod v
  rw [h] at hd
  have : ([] : List Char) =
      SESSION_COOKIE_NAME.data ++
        '=' :: ((encodeURIComponent v).data ++ ';' :: (cookieTail prod).data) := hd
  simp [SESSION_COOKIE_NAME] at this

theorem serialize_split (prod : Bool) (id : String) :
    splitOnChar ';' (serializeSessionCookie prod id).data =
      (SESSION_COOKIE_NAME.data ++ '=' :: (encodeURIComponent id).data) ::
        splitOnChar ';' (cookieTail prod).data := by
  have hdata : (serializeSessionCookie prod id).data =
      (SESSION_COOKIE_NAME.data ++ '=' :: (encodeURIComponent id).data) ++
        ';' :: (cookieTail prod).data := by
    rw [serialize_data]; simp
  rw [hdata]
  apply splitOnChar_append
  intro hmem
  rcases List.mem_append.mp hmem with h | h
  · revert h; decide
  · rcases List.mem_cons.mp h with h | h
    · exact absurd h (by decide)
    · exact semi_not_mem_encode id h

theorem segMatch_value_segment (id : String) :
    segMatch SESSION_COOKIE_NAME.data
      (SESSION_COOKIE_NAME.data ++ '=' :: (encodeURIComponent id).data) =
      some (encodeURIComponent id).data := by
  have hname : '=' ∉ SESSION_COOKIE_NAME.data := by decide
  have hsplitEq := splitOnChar_append (encodeURIComponent id).data hname
  unfold segMatch
  rw [hsplitEq]
  dsimp only
  have h1 : ¬(SESSION_COOKIE_NAME.data = [] ∨
      splitOnChar '=' (encodeURIComponent id).data = []) := by
    push_neg
    exact ⟨by decide, splitOnChar_ne_nil _ _⟩
  rw [if_neg h1,
    if_pos (trimChars_eq_self (by decide) :
      trimChars SESSION_COOKIE_NAME.data = SESSION_COOKIE_NAME.data),
    joinWith_splitOnChar, trimChars_eq_self (space_not_mem_encode id)]

/-- Parsing the serialized cookie recovers the percent-encoded value:
the parser never URL-decodes. -/
theorem getCookieValue_serialize (prod : Bool) (id : String) :
    getCookieValue (some (serializeSessionCookie prod id))
      SESSION_COOKIE_NAME = some (encodeURIComponent id) := by
  unfold getCookieValue
  dsimp only
  rw [if_neg (serialize_ne_empty prod id), serialize_split]
  unfold findCookie
  rw [segMatch_value_segment]
  exact congrArg some (String.ext rfl)

/-- The trimmed `;`-segments of the serialized cookie: the value pair
followed by the constant attributes, with `Secure` exactly in production. -/
theorem serialize_segments (prod : Bool) (id : String) :
    (splitOnChar ';' (serializeSessionCookie prod id).data).map trimChars =
      (SESSION_COOKIE_NAME.data ++ '=' :: (encodeURIComponent id).data) ::
        (if prod then
          ["Path=/".data, "Max-Age=2592000".data, "HttpOnly".data,
           "SameSite=Lax".data, "Secure".data]
         else
          ["Path=/".data, "Max-Age=2592000".data, "HttpOnly".data,
           "SameSite=Lax".data]) := by
  rw [serialize_split]
  have htrim : trimChars
      (SESSION_COOKIE_NAME.data ++ '=' :: (encodeURIComponent id).data) =
      SESSION_COOKIE_NAME.data ++ '=' :: (encodeURIComponent id).data := by
    apply trimChars_eq_self
    intro c hc
    rcases List.mem_append.mp hc with h | h
    · have hall : ∀ x ∈ SESSION_COOKIE_NAME.data, isJsSpace x = false := by
        decide
      exact hall c h
    · rcases List.mem_cons.mp h with h | h
      · subst h; rfl
      · exact space_not_mem_encode id c h
  cases prod with
  | false =>
    rw [show splitOnChar ';' (cookieTail false).data =
        [" Path=/".data, " Max-Age=2592000".data, " HttpOnly".data,
         " SameSite=Lax".data] from by decide]
    simp only [List.map_cons, List.map_nil, htrim,
      show trimChars " Path=/".data = "Path=/".data from by decide,
      show trimChars " Max-Age=2592000".data = "Max-Age=2592000".data from by decide,
      show trimChars " HttpOnly".data = "HttpOnly".data from by decide,
      show trimChars " SameSite=Lax".data = "SameSite=Lax".data from by decide]
    simp
  | true =>
    rw [show splitOnChar ';' (cookieTail true).data =
        [" Path=/".data, " Max-Age=2592000".data, " HttpOnly".data,
         " SameSite=Lax".data, " Secure".data] from by decide]
    simp only [List.map_cons, List.map_nil, htrim,
      show trimChars " Path=/".data = "Path=/".data from by decide,
      show trimChars " Max-Age=2592000".data = "Max-Age=2592000".data from by decide,
      show trimChars " HttpOnly".data = "HttpOnly".data from by decide,
      show trimChars " SameSite=Lax".data = "SameSite=Lax".data from by decide,
      show trimChars " Secure".data = "Secure".data from by decide]
    simp

/-- The value segment of the serialized cookie never equals a bare
attribute word: its head character is `c`. -/
theorem value_segment_ne {id : String} (l : List Char) (c0 : Char)
    (hl : l.head? = some c0) (hc : c0 ≠ 'c') :
    SESSION_COOKIE_NAME.data ++ '=' :: (encodeURIComponent id).data ≠ l := by
  intro h
  rw [show SESSION_COOKIE_NAME.data = 'c' :: "hatkit_session_id".data
    from by decide] at h
  have := congrArg List.head? h
  rw [hl] at this
  simp only [List.cons_append, List.head?_cons, Option.some.injEq] at this
  exact hc this.symm

end SerializeLemmas

section GeneratorLemmas

theorem hexChar_inj : ∀ a b : Fin 16, hexChar a = hexChar b → a = b := by
  decide

theorem variantChar_inj : ∀ a b : Fin 4, variantChar a = variantChar b → a = b := by
  decide

theorem digit36_inj : ∀ a b : Fin 36, digit36 a = digit36 b → a = b := by
  decide

theorem randomUUID_inj {d1 d2 : UUIDDraw}
    (h : randomUUID d1 = randomUUID d2) : d1 = d2 := by
  obtain ⟨n1, v1⟩ := d1
  obtain ⟨n2, v2⟩ := d2
  have hl : uuidChars ⟨n1, v1⟩ = uuidChars ⟨n2, v2⟩ := congrArg String.data h
  simp only [uuidChars, List.cons.injEq] at hl
  obtain ⟨h0, h1, h2, h3, h4, h5, h6, h7, -, h8, h9, h10, h11, -, -,
    h12, h13, h14, -, hv, h15, h16, h17, -, h18, h19, h20, h21, h22, h23,
    h24, h25, h26, h27, h28, h29, -⟩ := hl
  simp only [UUIDDraw.mk.injEq]
  refine ⟨funext fun i => ?_, variantChar_inj _ _ hv⟩
  fin_cases i <;> (apply hexChar_inj; assumption)

theorem mathRandomBase36_inj {m1 m2 : List (Fin 36)}
    (h : mathRandomBase36 m1 = mathRandomBase36 m2) : m1 = m2 := by
  have hl : m1.map digit36 = m2.map digit36 := congrArg String.data h
  exact List.map_injective_iff.mpr (fun a b => digit36_inj a b) hl

theorem randomUUID_ne_empty (d : UUIDDraw) : randomUUID d ≠ "" := by
  intro h
  have := congrArg String.data h
  simp [randomUUID, uuidChars] at this

theorem mathRandomBase36_ne_empty {m : List (Fin 36)} (hm : m ≠ []) :
    mathRandomBase36 m ≠ "" := by
  intro h
  have : m.map digit36 = [] := congrArg String.data h
  exact hm (List.map_eq_nil_iff.mp this)

theorem generateId_ne_empty {ca : Bool} {u : UUIDDraw} {m : List (Fin 36)}
    (h : ca = true ∨ m ≠ []) : generateId ca u m ≠ "" := by
  cases ca with
  | true => exact randomUUID_ne_empty u
  | false =>
    rcases h with h | h
    · cases h
    · exact mathRandomBase36_ne_empty h

theorem uuidChars_unreserved (d : UUIDDraw) :
    ∀ c ∈ uuidChars d, isUnreservedURI c = true := by
  have hexU : ∀ n : Fin 16, isUnreservedURI (hexChar n) = true := by decide
  have varU : ∀ v : Fin 4, isUnreservedURI (variantChar v) = true := by decide
  intro c hc
  fin_cases hc <;> first | exact hexU _ | exact varU _ | decide

theorem encode_randomUUID (d : UUIDDraw) :
    encodeURIComponent (randomUUID d) = randomUUID d :=
  encode_eq_self (uuidChars_unreserved d)

end GeneratorLemmas

section ResolverLemmas

theorem resolveUserId_of_found {hdr : Option String} {v : String}
    (ca prod : Bool) (u : UUIDDraw) (m : List (Fin 36))
    (h : getCookieValue hdr SESSION_COOKIE_NAME = some v) (hv : v ≠ "") :
    resolveUserId hdr ca prod u m = { userId := v, sessionCookie := none } := by
  unfold resolveUserId
  rw [h]
  dsimp only
  rw [if_neg hv]

theorem resolveUserId_mint_of_none {hdr : Option String}
    (ca prod : Bool) (u : UUIDDraw) (m : List (Fin 36))
    (h : getCookieValue hdr SESSION_COOKIE_NAME = none) :
    resolveUserId hdr ca prod u m = mintResult ca prod u m := by
  unfold resolveUserId
  rw [h]

theorem resolveUserId_mint_of_empty {hdr : Option String}
    (ca prod : Bool) (u : UUIDDraw) (m : List (Fin 36))
    (h : getCookieValue hdr SESSION_COOKIE_NAME = some "") :
    resolveUserId hdr ca prod u m = mintResult ca prod u m := by
  unfold resolveUserId
  rw [h]
  dsimp only
  rw [if_pos rfl]

theorem cookieTail_suffix (prod : Bool) (v : String) :
    (cookieTail prod).data <:+ (serializeSessionCookie prod v).data := by
  rw [serialize_data]
  have h1 : (cookieTail prod).data <:+ ';' :: (cookieTail prod).data :=
    List.suffix_cons _ _
  have h2 : (';' :: (cookieTail prod).data) <:+
      (encodeURIComponent v).data ++ ';' :: (cookieTail prod).data :=
    List.suffix_append _ _
  have h3 : ((encodeURIComponent v).data ++ ';' :: (cookieTail prod).data) <:+
      '=' :: ((encodeURIComponent v).data ++ ';' :: (cookieTail prod).data) :=
    List.suffix_cons _ _
  have h4 : ('=' :: ((encodeURIComponent v).data ++ ';' :: (cookieTail prod).data)) <:+
      SESSION_COOKIE_NAME.data ++
        '=' :: ((encodeURIComponent v).data ++ ';' :: (cookieTail prod).data) :=
    List.suffix_append _ _
  exact ((h1.trans h2).trans h3).trans h4

theorem attr_infix_serialize {p : List Char} (prod : Bool) (v : String)
    (h : p <:+: (cookieTail prod).data) :
    p <:+: (serializeSessionCookie prod v).data :=
  h.trans (List.IsSuffix.isInfix (cookieTail_suffix prod v))

end ResolverLemmas

/-- A fixed sample random draw: all nibbles zero. -/
def d0 : UUIDDraw := ⟨fun _ => 0, 0⟩

/-- A second, different sample random draw: all nibbles one. -/
def d1 : UUIDDraw := ⟨fun _ => 1, 0⟩

/-- C1 (counterexample): the header `chatkit_session_id=` contains a pair
whose trimmed name is exactly `chatkit_session_id`, yet `resolveUserId`
does not return its (empty) value with a null cookie: it mints a new
identity and emits a non-null cookie. -/
theorem C1_counterexample :
    getCookieValue (some "chatkit_session_id=") SESSION_COOKIE_NAME =
        some "" ∧
      (resolveUserId (some "chatkit_session_id=") true false d0 []).sessionCookie
        ≠ none := by
  constructor
  · decide
  · rw [resolveUserId_mint_of_empty true false d0 [] (by decide)]
    simp [mintResult]

/-- C1 (amended): when `getCookieValue` finds the cookie — the first
well-formed pair whose trimmed name is exactly `chatkit_session_id` — and
its trimmed value is non-empty, `resolveUserId` returns that value
unchanged (in particular not URL-decoded) with `sessionCookie = null`. -/
theorem C1_reuse (hdr : String) (ca prod : Bool) (u : UUIDDraw)
    (m : List (Fin 36)) (v : String)
    (h : getCookieValue (some hdr) SESSION_COOKIE_NAME = some v)
    (hv : v ≠ "") :
    resolveUserId (some hdr) ca prod u m =
      { userId := v, sessionCookie := none } :=
  resolveUserId_of_found ca prod u m h hv

/-- C1 (witness): the header `foo=bar; chatkit_session_id=xyz; baz=qux`
yields `userId = "xyz"` and no new cookie. -/
theorem C1_witness :
    resolveUserId (some "foo=bar; chatkit_session_id=xyz; baz=qux")
        true false d0 [] =
      { userId := "xyz", sessionCookie := none } :=
  C1_reuse "foo=bar; chatkit_session_id=xyz; baz=qux" true false d0 [] "xyz"
    (by decide) (by decide)

/-- C10: when the parsed cookie value is empty (for example the header
`chatkit_session_id=`), the truthiness check treats the cookie as absent:
a fresh identifier is generated and a non-null cookie is emitted. -/
theorem C10_empty_value (hdr : Option String) (ca prod : Bool)
    (u : UUIDDraw) (m : List (Fin 36))
    (h : getCookieValue hdr SESSION_COOKIE_NAME = some "") :
    (resolveUserId hdr ca prod u m).userId = generateId ca u m ∧
      (resolveUserId hdr ca prod u m).sessionCookie =
        some (serializeSessionCookie prod (generateId ca u m)) := by
  rw [resolveUserId_mint_of_empty ca prod u m h]
  exact ⟨rfl, rfl⟩

/-- C10 (witness): instantiated at the header `chatkit_session_id=`. -/
theorem C10_witness :
    (resolveUserId (some "chatkit_session_id=") true false d0 []).userId =
        generateId true d0 [] ∧
      (resolveUserId (some "chatkit_session_id=") true false d0 []).sessionCookie =
        some (serializeSessionCookie false (generateId true d0 [])) :=
  C10_empty_value (some "chatkit_session_id=") true false d0 [] (by decide)

/-- C4: parsing is total and malformed segments are harmless: the lookup
only ever sees the well-formed segments (those with an `=` and a
non-empty raw name), any segment without an `=` is not well-formed, and
the malformed header `chatkit_session_id` degenerates to the minting
branch.  (In this embedding every function is total by construction, so
"never throws" holds for every header.) -/
theorem C4_malformed_skipped :
    (∀ (hdr : String) (name : String),
      getCookieValue (some hdr) name =
        (findCookie name.data
          ((splitOnChar ';' hdr.data).filter isWellFormedSeg)).map
          String.mk) ∧
    (∀ seg : List Char, '=' ∉ seg → isWellFormedSeg seg = false) ∧
    (∀ (ca prod : Bool) (u : UUIDDraw) (m : List (Fin 36)),
      resolveUserId (some "chatkit_session_id") ca prod u m =
        mintResult ca prod u m) := by
  refine ⟨?_, fun seg h => not_wf_of_no_eq h, ?_⟩
  · intro hdr name
    unfold getCookieValue
    dsimp only
    by_cases h : hdr = ""
    · subst h
      rw [if_pos rfl,
        show (splitOnChar ';' ("" : String).data).filter isWellFormedSeg = []
          from by decide]
      rfl
    · rw [if_neg h, ← findCookie_filter]
  · intro ca prod u m
    exact resolveUserId_mint_of_none ca prod u m (by decide)

/-- C4 (witness): instantiated at the malformed header
`chatkit_session_id`. -/
theorem C4_witness :
    getCookieValue (some "chatkit_session_id") SESSION_COOKIE_NAME =
        (findCookie SESSION_COOKIE_NAME.data
          ((splitOnChar ';' ("chatkit_session_id" : String).data).filter
            isWellFormedSeg)).map String.mk ∧
      isWellFormedSeg ("chatkit_session_id" : String).data = false ∧
      resolveUserId (some "chatkit_session_id") true false d0 [] =
        mintResult true false d0 [] :=
  ⟨C4_malformed_skipped.1 "chatkit_session_id" SESSION_COOKIE_NAME,
   C4_malformed_skipped.2.1 ("chatkit_session_id" : String).data (by decide),
   C4_malformed_skipped.2.2 true false d0 []⟩

/-- C5 (counterexample): the claimed algorithm returns the value of the
matching pair in full, but on `chatkit_session_id= abc ` the code
additionally trims the value: the two algorithms disagree. -/
theorem C5_counterexample :
    getCookieValue (some "chatkit_session_id= abc ") SESSION_COOKIE_NAME =
        some "abc" ∧
      specGetCookieValue (some "chatkit_session_id= abc ")
          SESSION_COOKIE_NAME = some " abc " ∧
      getCookieValue (some "chatkit_session_id= abc ") SESSION_COOKIE_NAME ≠
        specGetCookieValue (some "chatkit_session_id= abc ")
          SESSION_COOKIE_NAME :=
  ⟨by decide, by decide, by decide⟩

/-- C5 (amended): `getCookieValue` implements the claimed algorithm with
the returned value additionally trimmed (for any non-empty cookie name):
split on `;`, split each segment on the first `=` only, trim the name,
compare exactly and case-sensitively, first match wins; a value
containing `=` is returned in full, names differing in case do not
match. -/
theorem C5_algorithm :
    (∀ (hdr : Option String) (name : String), name ≠ "" →
      getCookieValue hdr name = specGetCookieValueTrim hdr name) ∧
      getCookieValue (some "chatkit_session_id=a=b") SESSION_COOKIE_NAME =
        some "a=b" ∧
      getCookieValue (some "CHATKIT_SESSION_ID=abc") SESSION_COOKIE_NAME =
        none ∧
      getCookieValue (some "chatkit_session_id=first; chatkit_session_id=second")
        SESSION_COOKIE_NAME = some "first" :=
  ⟨fun hdr _ hn => getCookieValue_eq_specTrim hdr hn,
   by decide, by decide, by decide⟩

/-- C5 (witness): instantiated at a concrete header and name. -/
theorem C5_witness :
    getCookieValue (some "foo=bar; chatkit_session_id=xyz")
        SESSION_COOKIE_NAME =
      specGetCookieValueTrim (some "foo=bar; chatkit_session_id=xyz")
        SESSION_COOKIE_NAME :=
  C5_algorithm.1 (some "foo=bar; chatkit_session_id=xyz")
    SESSION_COOKIE_NAME (by decide)

/-- C2 (counterexample): with `crypto.randomUUID` unavailable and the
`Math.random` draw exactly `0` — whose base-36 rendering has no fraction
digits, `(0).toString(36).slice(2) = ""` — the resolver returns an empty
generated `userId` on an absent cookie header, refuting the claimed
unconditional non-emptiness; the generation branch is still taken (a
non-null cookie is emitted). -/
theorem C2_counterexample :
    (resolveUserId none false false d0 []).userId = "" ∧
      (resolveUserId none false false d0 []).sessionCookie ≠ none := by
  rw [resolveUserId_mint_of_none false false d0 []
    (rfl : getCookieValue none SESSION_COOKIE_NAME = none)]
  exact ⟨rfl, by simp [mintResult]⟩

/-- C2 (amended): with no usable cookie, the resolver mints: the
returned identifier is the generated one (UUID when `crypto.randomUUID`
is available, base-36 fallback otherwise) and the emitted cookie
contains `Path=/`, `HttpOnly`, `SameSite=Lax` and `Max-Age=2592000`; the
identifier is non-empty whenever the UUID generator is available or the
fallback draw has at least one base-36 fraction digit (`Math.random`
drew a non-zero number). -/
theorem C2_generation (hdr : Option String) (ca prod : Bool) (u : UUIDDraw)
    (m : List (Fin 36))
    (h : hdr = none ∨ hdr = some "" ∨
      getCookieValue hdr SESSION_COOKIE_NAME = none) :
    (resolveUserId hdr ca prod u m).userId = generateId ca u m ∧
      ((ca = true ∨ m ≠ []) → (resolveUserId hdr ca prod u m).userId ≠ "") ∧
      ∃ c, (resolveUserId hdr ca prod u m).sessionCookie = some c ∧
        ("Path=/" : String).data <:+: c.data ∧
        ("HttpOnly" : String).data <:+: c.data ∧
        ("SameSite=Lax" : String).data <:+: c.data ∧
        ("Max-Age=2592000" : String).data <:+: c.data := by
  have hnone : getCookieValue hdr SESSION_COOKIE_NAME = none := by
    rcases h with rfl | rfl | h
    · rfl
    · decide
    · exact h
  rw [resolveUserId_mint_of_none ca prod u m hnone]
  have hP : ("Path=/" : String).data <:+: (cookieTail prod).data := by
    cases prod <;> decide
  have hH : ("HttpOnly" : String).data <:+: (cookieTail prod).data := by
    cases prod <;> decide
  have hS : ("SameSite=Lax" : String).data <:+: (cookieTail prod).data := by
    cases prod <;> decide
  have hM : ("Max-Age=2592000" : String).data <:+: (cookieTail prod).data := by
    cases prod <;> decide
  exact ⟨rfl, fun hgen => generateId_ne_empty hgen,
    serializeSessionCookie prod (generateId ca u m), rfl,
    attr_infix_serialize prod _ hP, attr_infix_serialize prod _ hH,
    attr_infix_serialize prod _ hS, attr_infix_serialize prod _ hM⟩

/-- C2 (witness): instantiated at an absent cookie header with the UUID
generator available. -/
theorem C2_witness :
    (resolveUserId none true false d0 []).userId = generateId true d0 [] ∧
      ((true = true ∨ ([] : List (Fin 36)) ≠ []) →
        (resolveUserId none true false d0 []).userId ≠ "") ∧
      ∃ c, (resolveUserId none true false d0 []).sessionCookie = some c ∧
        ("Path=/" : String).data <:+: c.data ∧
        ("HttpOnly" : String).data <:+: c.data ∧
        ("SameSite=Lax" : String).data <:+: c.data ∧
        ("Max-Age=2592000" : String).data <:+: c.data :=
  C2_generation none true false d0 [] (Or.inl rfl)

/-- C3: whenever a cookie is emitted, it is exactly the wire format
`chatkit_session_id=<urlEncodedId>; Path=/; Max-Age=2592000; HttpOnly;
SameSite=Lax`, with `; Secure` appended exactly in production, in this
order, for the very identifier returned. -/
theorem C3_cookie_format (hdr : Option String) (ca prod : Bool)
    (u : UUIDDraw) (m : List (Fin 36)) (c : String)
    (h : (resolveUserId hdr ca prod u m).sessionCookie = some c) :
    c = "chatkit_session_id=" ++
        encodeURIComponent (resolveUserId hdr ca prod u m).userId ++
        "; Path=/; Max-Age=2592000; HttpOnly; SameSite=Lax" ++
        (if prod then "; Secure" else "") := by
  rcases hg : getCookieValue hdr SESSION_COOKIE_NAME with _ | v
  · rw [resolveUserId_mint_of_none ca prod u m hg] at h ⊢
    simp only [mintResult, Option.some.injEq] at h
    rw [← h, serialize_eq]
    rfl
  · by_cases hv : v = ""
    · subst hv
      rw [resolveUserId_mint_of_empty ca prod u m hg] at h ⊢
      simp only [mintResult, Option.some.injEq] at h
      rw [← h, serialize_eq]
      rfl
    · rw [resolveUserId_of_found ca prod u m hg hv] at h
      exact absurd h (by simp)

/-- C3 (witness): instantiated at an absent header in non-production. -/
theorem C3_witness :
    serializeSessionCookie false (generateId true d0 []) =
      "chatkit_session_id=" ++
        encodeURIComponent (resolveUserId none true false d0 []).userId ++
        "; Path=/; Max-Age=2592000; HttpOnly; SameSite=Lax" ++
        (if false then "; Secure" else "") :=
  C3_cookie_format none true false d0 []
    (serializeSessionCookie false (generateId true d0 [])) rfl

/-- C6: among the trimmed `;`-attributes of the serialized cookie,
`Secure` appears exactly in the production-flagged case, while `Path=/`,
`Max-Age=2592000`, `HttpOnly` and `SameSite=Lax` appear in both cases. -/
theorem C6_secure_iff_prod (id : String) (prod : Bool) :
    (("Secure" : String).data ∈
        (splitOnChar ';' (serializeSessionCookie prod id).data).map trimChars
      ↔ prod = true) ∧
      ("Path=/" : String).data ∈
        (splitOnChar ';' (serializeSessionCookie prod id).data).map trimChars ∧
      ("Max-Age=2592000" : String).data ∈
        (splitOnChar ';' (serializeSessionCookie prod id).data).map trimChars ∧
      ("HttpOnly" : String).data ∈
        (splitOnChar ';' (serializeSessionCookie prod id).data).map trimChars ∧
      ("SameSite=Lax" : String).data ∈
        (splitOnChar ';' (serializeSessionCookie prod id).data).map trimChars := by
  rw [serialize_segments]
  have hsec : SESSION_COOKIE_NAME.data ++ '=' :: (encodeURIComponent id).data ≠
      ("Secure" : String).data :=
    value_segment_ne ("Secure" : String).data 'S' (by decide) (by decide)
  cases prod with
  | false =>
    refine ⟨⟨fun hmem => ?_, fun h => absurd h (by decide)⟩,
      List.mem_cons_of_mem _ (by decide), List.mem_cons_of_mem _ (by decide),
      List.mem_cons_of_mem _ (by decide), List.mem_cons_of_mem _ (by decide)⟩
    rcases List.mem_cons.mp hmem with h | h
    · exact absurd h.symm hsec
    · revert h
      decide
  | true =>
    exact ⟨⟨fun _ => rfl, fun _ => List.mem_cons_of_mem _ (by decide)⟩,
      List.mem_cons_of_mem _ (by decide), List.mem_cons_of_mem _ (by decide),
      List.mem_cons_of_mem _ (by decide), List.mem_cons_of_mem _ (by decide)⟩

/-- C7: output consistency of `resolveUserId`: the cookie is null exactly
when the returned identifier was read (truthy) from the inbound header,
and a non-null cookie always carries, URL-encoded, the very identifier
being returned, which is the freshly generated one. -/
theorem C7_consistency (hdr : Option String) (ca prod : Bool)
    (u : UUIDDraw) (m : List (Fin 36)) :
    ((resolveUserId hdr ca prod u m).sessionCookie = none ↔
      (getCookieValue hdr SESSION_COOKIE_NAME =
          some (resolveUserId hdr ca prod u m).userId ∧
        (resolveUserId hdr ca prod u m).userId ≠ "")) ∧
      (∀ c, (resolveUserId hdr ca prod u m).sessionCookie = some c →
        (resolveUserId hdr ca prod u m).userId = generateId ca u m ∧
        c = "chatkit_session_id=" ++
          encodeURIComponent (resolveUserId hdr ca prod u m).userId ++
          "; Path=/; Max-Age=2592000; HttpOnly; SameSite=Lax" ++
          (if prod then "; Secure" else "")) := by
  rcases hg : getCookieValue hdr SESSION_COOKIE_NAME with _ | v
  · rw [resolveUserId_mint_of_none ca prod u m hg]
    constructor
    · simp [mintResult, hg]
    · intro c hc
      simp only [mintResult, Option.some.injEq] at hc
      exact ⟨rfl, by rw [← hc, serialize_eq]; rfl⟩
  · by_cases hv : v = ""
    · subst hv
      rw [resolveUserId_mint_of_empty ca prod u m hg]
      constructor
      · simp only [mintResult, hg]
        constructor
        · intro h
          exact absurd h (by simp)
        · rintro ⟨h1, h2⟩
          exact absurd (Option.some.inj h1).symm h2
      · intro c hc
        simp only [mintResult, Option.some.injEq] at hc
        exact ⟨rfl, by rw [← hc, serialize_eq]; rfl⟩
    · rw [resolveUserId_of_found ca prod u m hg hv]
      constructor
      · simp [hg, hv]
      · intro c hc
        exact absurd hc (by simp)

/-- C7 (witness): instantiated at an absent header, where a cookie is
emitted. -/
theorem C7_witness :
    (resolveUserId none true false d0 []).userId = generateId true d0 [] ∧
      serializeSessionCookie false (generateId true d0 []) =
        "chatkit_session_id=" ++
          encodeURIComponent (resolveUserId none true false d0 []).userId ++
          "; Path=/; Max-Age=2592000; HttpOnly; SameSite=Lax" ++
          (if false then "; Secure" else "") :=
  (C7_consistency none true false d0 []).2
    (serializeSessionCookie false (generateId true d0 [])) rfl

/-- C8: with the random source made explicit, generation is injective in
the random input: two minting calls (no matching cookie) with distinct
draws of the active generator return distinct identifiers. -/
theorem C8_distinct (hdr1 hdr2 : Option String) (ca prod1 prod2 : Bool)
    (u1 u2 : UUIDDraw) (m1 m2 : List (Fin 36))
    (h1 : getCookieValue hdr1 SESSION_COOKIE_NAME = none)
    (h2 : getCookieValue hdr2 SESSION_COOKIE_NAME = none) :
    (ca = true → u1 ≠ u2 →
      (resolveUserId hdr1 ca prod1 u1 m1).userId ≠
        (resolveUserId hdr2 ca prod2 u2 m2).userId) ∧
      (ca = false → m1 ≠ m2 →
        (resolveUserId hdr1 ca prod1 u1 m1).userId ≠
          (resolveUserId hdr2 ca prod2 u2 m2).userId) := by
  rw [resolveUserId_mint_of_none ca prod1 u1 m1 h1,
    resolveUserId_mint_of_none ca prod2 u2 m2 h2]
  constructor
  · rintro rfl hne heq
    exact hne (randomUUID_inj
      (by simpa [mintResult, generateId] using heq))
  · rintro rfl hne heq
    exact hne (mathRandomBase36_inj
      (by simpa [mintResult, generateId] using heq))

/-- C8 (witness): two concrete distinct UUID draws give distinct
identifiers. -/
theorem C8_witness :
    (resolveUserId none true false d0 []).userId ≠
      (resolveUserId none true false d1 []).userId :=
  (C8_distinct none none true false false d0 d1 [] [] rfl rfl).1 rfl
    (by decide)

/-- C9: serialize-then-parse round trip: parsing the serialized cookie
returns the percent-encoded identifier (parsing never URL-decodes); every
`crypto.randomUUID` output is fixed by `encodeURIComponent` (lowercase
hex digits and hyphens only), so for such identifiers — and any
identifier fixed by the encoding — the round trip is the identity. -/
theorem C9_roundtrip (prod : Bool) (id : String) :
    getCookieValue (some (serializeSessionCookie prod id))
        SESSION_COOKIE_NAME = some (encodeURIComponent id) ∧
      (∀ d : UUIDDraw, encodeURIComponent (randomUUID d) = randomUUID d) ∧
      (encodeURIComponent id = id →
        getCookieValue (some (serializeSessionCookie prod id))
          SESSION_COOKIE_NAME = some id) := by
  refine ⟨getCookieValue_serialize prod id, encode_randomUUID, fun h => ?_⟩
  rw [getCookieValue_serialize prod id, h]

/-- C9 (witness): round trip on a concrete UUID identifier. -/
theorem C9_witness :
    getCookieValue (some (serializeSessionCookie false (randomUUID d0)))
      SESSION_COOKIE_NAME = some (randomUUID d0) :=
  (C9_roundtrip false (randomUUID d0)).2.2 (by decide)
